import Mathlib

/-!
Verification development for the DBML editing surface of a diagramming tool
(`editor-table-dbml.tsx` and its explicit-apply sibling).  The reconciliation
algorithm, the relationship passes, the apply pipeline, the session guards and
the error extraction are embedded as executable Lean definitions, and the
specified properties are settled as theorems about those definitions.
-/

/-- A field of a table.  Modelled from the spec: the `DBField` domain module is
not part of the reviewed sources; §3 gives identity (stable id), name and
type/constraints.  Only the components the reconciliation reads are kept. -/
structure DBField where
  id : String
  name : String
  ty : String
  deriving Repr, DecidableEq

/-- A table.  Modelled from the spec: the `DBTable` domain module is not part
of the reviewed sources; §3 gives identity, schema name, display name, ordered
fields, and diagram-only layout attributes (x, y, color). -/
structure DBTable where
  id : String
  schema : String
  name : String
  fields : List DBField
  x : Int
  y : Int
  color : String
  deriving Repr, DecidableEq

/-- A relationship.  Modelled from the spec: the `DBRelationship` domain module
is not part of the reviewed sources; §3 and the construction site in
`relationshipsToAdd` give its components. -/
structure DBRelationship where
  id : String
  sourceTableId : String
  targetTableId : String
  sourceFieldId : String
  targetFieldId : String
  sourceCardinality : String
  targetCardinality : String
  sourceSchema : String
  targetSchema : String
  name : String
  createdAt : Nat
  deriving Repr, DecidableEq

/-- A diagram: the aggregate of tables and relationships (§3). -/
structure DBDiagram where
  tables : List DBTable
  relationships : List DBRelationship
  deriving Repr, DecidableEq

/-! ### JavaScript `Map` semantics

The reconciliation code uses `Map<string, _>` with `set`, `get`, `delete`,
`has` and `Array.from(map.values())`.  A JS map is an insertion-ordered
key-value store; `set` on a present key overwrites in place. -/

def jsMapSet {α : Type} (m : List (String × α)) (k : String) (v : α) :
    List (String × α) :=
  if m.any (fun p => decide (p.1 = k)) then
    m.map (fun p => if p.1 = k then (k, v) else p)
  else
    m ++ [(k, v)]

def jsMapGet {α : Type} (m : List (String × α)) (k : String) : Option α :=
  (m.find? (fun p => decide (p.1 = k))).map Prod.snd

def jsMapDelete {α : Type} (m : List (String × α)) (k : String) :
    List (String × α) :=
  m.filter (fun p => decide (p.1 ≠ k))

def jsMapValues {α : Type} (m : List (String × α)) : List α :=
  m.map Prod.snd

/-! ### Identity Reconciler (tables)

Embeds `applyDBMLChanges`' table pass: the key is the string
`${table.schema || ''}.${table.name}`; matched tables keep id/x/y/color and
take the imported content, with field ids preserved by name; unmatched
imported tables are additions; current tables left in the map are removals. -/

/-- `${table.schema || ''}.${table.name}` (on a plain string, `|| ''` is the
identity). -/
def tableKey (t : DBTable) : String := t.schema ++ "." ++ t.name

/-- `currentDiagram.tables.forEach(t => currentTableMap.set(key(t), t))`. -/
def buildCurrentTableMap (ts : List DBTable) : List (String × DBTable) :=
  ts.foldl (fun m t => jsMapSet m (tableKey t) t) []

/-- The `fields:` override of `tableWithPreservedIds`: each imported field
whose name finds a match in the existing table keeps the existing field's id;
otherwise it is kept as imported (with its freshly generated id). -/
def preserveFields (existing imported : DBTable) : List DBField :=
  imported.fields.map (fun importedField =>
    match existing.fields.find? (fun f => decide (f.name = importedField.name)) with
    | some existingField => { importedField with id := existingField.id }
    | none => importedField)

/-- `tableWithPreservedIds`: spread of the imported table, overriding id, x,
y, color from the existing table and the fields by `preserveFields`. -/
def mergeTable (existing imported : DBTable) : DBTable :=
  { imported with
    id := existing.id
    x := existing.x
    y := existing.y
    color := existing.color
    fields := preserveFields existing imported }

/-- Result of the table pass. -/
structure TableDiff where
  tablesToAdd : List DBTable
  tablesToUpdate : List DBTable
  tablesToRemove : List DBTable
  deriving Repr, DecidableEq

/-- The `importedDiagram.tables.forEach` loop: look each imported table up by
key; on a hit, push the merged table to the updates and delete the key from
the map; on a miss, push the imported table to the additions.  Returns the
additions, the updates, and the final map state. -/
def processImported (m : List (String × DBTable)) :
    List DBTable → List DBTable × List DBTable × List (String × DBTable)
  | [] => ([], [], m)
  | importedTable :: rest =>
    match jsMapGet m (tableKey importedTable) with
    | some existingTable =>
      let r := processImported (jsMapDelete m (tableKey importedTable)) rest
      (r.1, mergeTable existingTable importedTable :: r.2.1, r.2.2)
    | none =>
      let r := processImported m rest
      (importedTable :: r.1, r.2.1, r.2.2)

/-- The whole table pass of `applyDBMLChanges`:
`tablesToRemove = Array.from(currentTableMap.values())` after processing. -/
def reconcileTables (current imported : List DBTable) : TableDiff :=
  let m := buildCurrentTableMap current
  let r := processImported m imported
  ⟨r.1, r.2.1, jsMapValues r.2.2⟩

example :
    reconcileTables
      [⟨"t1", "", "users", [⟨"f1", "id", "int"⟩], 10, 20, "#fff"⟩]
      [⟨"i1", "", "users", [⟨"g1", "id", "int"⟩, ⟨"g2", "email", "text"⟩], 0, 0, "c"⟩] =
      ⟨[],
       [⟨"t1", "", "users", [⟨"f1", "id", "int"⟩, ⟨"g2", "email", "text"⟩], 10, 20, "#fff"⟩],
       []⟩ := by
  decide

/-! ### Helper lemmas about the JS map embedding -/

theorem find?_key_eq {α β : Type} [DecidableEq β] (k : α → β) (v : β) :
    ∀ (l : List α) (x : α), (l.map k).Nodup → x ∈ l → k x = v →
      l.find? (fun y => decide (k y = v)) = some x := by
  intro l
  induction l with
  | nil => intro x _ hx; cases hx
  | cons a t ih =>
    intro x hnd hx hkv
    have hnd' : k a ∉ t.map k ∧ (t.map k).Nodup := by
      simpa [List.nodup_cons] using hnd
    rcases List.mem_cons.mp hx with rfl | hxt
    · exact List.find?_cons_of_pos _ (by simp [hkv])
    · have hka : ¬ (k a = v) := by
        intro h
        exact hnd'.1 (h.trans hkv.symm ▸ List.mem_map_of_mem k hxt)
      rw [List.find?_cons_of_neg _ (by simp [hka])]
      exact ih x hnd'.2 hxt hkv

theorem jsMapSet_of_not_mem {α : Type} (m : List (String × α)) (k : String)
    (v : α) (h : k ∉ m.map Prod.fst) : jsMapSet m k v = m ++ [(k, v)] := by
  have : m.any (fun p => decide (p.1 = k)) = false := by
    simp only [List.any_eq_false, decide_eq_true_eq]
    intro p hp hpk
    exact h (hpk ▸ List.mem_map_of_mem Prod.fst hp)
  simp [jsMapSet, this]

theorem buildCurrentTableMap_eq_aux (ts : List DBTable) :
    ∀ m : List (String × DBTable),
      (m.map Prod.fst ++ ts.map tableKey).Nodup →
      ts.foldl (fun m t => jsMapSet m (tableKey t) t) m =
        m ++ ts.map (fun t => (tableKey t, t)) := by
  induction ts with
  | nil => intro m _; simp
  | cons a t ih =>
    intro m hnd
    have hdis : tableKey a ∉ m.map Prod.fst := by
      have := (List.nodup_append.mp hnd).2.2
      intro hmem
      exact this hmem (by simp)
    have hstep : jsMapSet m (tableKey a) a = m ++ [(tableKey a, a)] :=
      jsMapSet_of_not_mem m (tableKey a) a hdis
    have hnd' : ((m ++ [(tableKey a, a)]).map Prod.fst ++ t.map tableKey).Nodup := by
      simpa [List.append_assoc] using hnd
    calc (a :: t).foldl (fun m t => jsMapSet m (tableKey t) t) m
        = t.foldl (fun m t => jsMapSet m (tableKey t) t) (m ++ [(tableKey a, a)]) := by
          simp [List.foldl_cons, hstep]
      _ = (m ++ [(tableKey a, a)]) ++ t.map (fun t => (tableKey t, t)) := ih _ hnd'
      _ = m ++ ((a :: t).map (fun t => (tableKey t, t))) := by simp

theorem buildCurrentTableMap_eq (current : List DBTable)
    (h : (current.map tableKey).Nodup) :
    buildCurrentTableMap current = current.map (fun t => (tableKey t, t)) := by
  simpa [buildCurrentTableMap] using
    buildCurrentTableMap_eq_aux current [] (by simpa using h)

theorem jsMapGet_mapList (l : List DBTable) (k : String) :
    jsMapGet (l.map (fun t => (tableKey t, t))) k =
      l.find? (fun t => decide (tableKey t = k)) := by
  induction l with
  | nil => rfl
  | cons a t ih =>
    by_cases ha : tableKey a = k
    · simp [jsMapGet, List.find?_cons, ha]
    · simp only [List.map_cons]
      rw [jsMapGet, List.find?_cons_of_neg _ (by simp [ha]),
        List.find?_cons_of_neg _ (by simp [ha])]
      exact ih

theorem jsMapGet_delete_ne {α : Type} (m : List (String × α)) (k k' : String)
    (h : k' ≠ k) : jsMapGet (jsMapDelete m k) k' = jsMapGet m k' := by
  simp only [jsMapGet, jsMapDelete]
  induction m with
  | nil => rfl
  | cons p rest ih =>
    by_cases hp : p.1 = k
    · have hp' : ¬ p.1 = k' := fun hh => h (hh.symm.trans hp)
      rw [List.filter_cons_of_neg (by simp [hp]),
        List.find?_cons_of_neg _ (by simp [hp'])]
      exact ih
    · by_cases hq : p.1 = k'
      · rw [List.filter_cons_of_pos (by simp [hp]),
          List.find?_cons_of_pos _ (by simp [hq]),
          List.find?_cons_of_pos _ (by simp [hq])]
      · rw [List.filter_cons_of_pos (by simp [hp]),
          List.find?_cons_of_neg _ (by simp [hq]),
          List.find?_cons_of_neg _ (by simp [hq])]
        exact ih

theorem filterMap_congr_mem {α β : Type} (l : List α) {f g : α → Option β}
    (h : ∀ x ∈ l, f x = g x) : l.filterMap f = l.filterMap g := by
  induction l with
  | nil => rfl
  | cons a t ih =>
    rw [List.filterMap_cons, List.filterMap_cons, h a (by simp),
      ih (fun x hx => h x (by simp [hx]))]

theorem processImported_adds (l : List DBTable) :
    ∀ m : List (String × DBTable), (l.map tableKey).Nodup →
      (processImported m l).1 =
        l.filter (fun it => (jsMapGet m (tableKey it)).isNone) := by
  induction l with
  | nil => intro m _; rfl
  | cons it rest ih =>
    intro m hnd
    have hnds : tableKey it ∉ rest.map tableKey ∧ (rest.map tableKey).Nodup :=
      List.nodup_cons.mp (by simpa using hnd)
    have hne : ∀ it' ∈ rest, tableKey it' ≠ tableKey it := by
      intro it' hmem heq
      exact hnds.1 (heq ▸ List.mem_map_of_mem tableKey hmem)
    cases hget : jsMapGet m (tableKey it) with
    | some ex =>
      have h1 : (processImported m (it :: rest)).1 =
          (processImported (jsMapDelete m (tableKey it)) rest).1 := by
        simp [processImported, hget]
      rw [h1, ih _ hnds.2, List.filter_cons_of_neg (by simp [hget])]
      apply List.filter_congr
      intro x hx
      rw [jsMapGet_delete_ne _ _ _ (hne x hx)]
    | none =>
      have h1 : (processImported m (it :: rest)).1 =
          it :: (processImported m rest).1 := by
        simp [processImported, hget]
      rw [h1, ih _ hnds.2, List.filter_cons_of_pos (by simp [hget])]

theorem processImported_upds (l : List DBTable) :
    ∀ m : List (String × DBTable), (l.map tableKey).Nodup →
      (processImported m l).2.1 =
        l.filterMap (fun it =>
          (jsMapGet m (tableKey it)).map (fun ex => mergeTable ex it)) := by
  induction l with
  | nil => intro m _; rfl
  | cons it rest ih =>
    intro m hnd
    have hnds : tableKey it ∉ rest.map tableKey ∧ (rest.map tableKey).Nodup :=
      List.nodup_cons.mp (by simpa using hnd)
    have hne : ∀ it' ∈ rest, tableKey it' ≠ tableKey it := by
      intro it' hmem heq
      exact hnds.1 (heq ▸ List.mem_map_of_mem tableKey hmem)
    cases hget : jsMapGet m (tableKey it) with
    | some ex =>
      have h1 : (processImported m (it :: rest)).2.1 =
          mergeTable ex it :: (processImported (jsMapDelete m (tableKey it)) rest).2.1 := by
        simp [processImported, hget]
      rw [h1, ih _ hnds.2, List.filterMap_cons]
      simp only [hget, Option.map_some']
      congr 1
      apply filterMap_congr_mem
      intro x hx
      rw [jsMapGet_delete_ne _ _ _ (hne x hx)]
    | none =>
      have h1 : (processImported m (it :: rest)).2.1 =
          (processImported m rest).2.1 := by
        simp [processImported, hget]
      rw [h1, ih _ hnds.2, List.filterMap_cons]
      simp [hget]

theorem processImported_finalMap (l : List DBTable) :
    ∀ m : List (String × DBTable),
      (processImported m l).2.2 =
        m.filter (fun p => !(l.any (fun it => decide (tableKey it = p.1)))) := by
  induction l with
  | nil => intro m; simp [processImported]
  | cons it rest ih =>
    intro m
    cases hget : jsMapGet m (tableKey it) with
    | some ex =>
      have h1 : (processImported m (it :: rest)).2.2 =
          (processImported (jsMapDelete m (tableKey it)) rest).2.2 := by
        simp [processImported, hget]
      rw [h1, ih, jsMapDelete, List.filter_filter]
      apply List.filter_congr
      intro p _
      by_cases hph : tableKey it = p.1 <;> simp [hph, eq_comm, Bool.and_comm]
    | none =>
      have h1 : (processImported m (it :: rest)).2.2 =
          (processImported m rest).2.2 := by
        simp [processImported, hget]
      have hnone : ∀ p ∈ m, ¬ (p.1 = tableKey it) := by
        have := hget
        simp only [jsMapGet, Option.map_eq_none', List.find?_eq_none,
          decide_eq_true_eq] at this
        exact this
      rw [h1, ih]
      apply List.filter_congr
      intro p hp
      have : ¬ (tableKey it = p.1) := fun hh => hnone p hp hh.symm
      simp [this]

/-- Under the uniqueness invariants (§3: the (schema, name) pair is unique in
a snapshot, likewise for the parsed import) the three operation sets of the
table pass are precisely a filter / filterMap / filter of the inputs. -/
theorem reconcileTables_eq (current imported : List DBTable)
    (hc : (current.map tableKey).Nodup) (hi : (imported.map tableKey).Nodup) :
    reconcileTables current imported =
      ⟨imported.filter (fun it =>
          (current.find? (fun t => decide (tableKey t = tableKey it))).isNone),
       imported.filterMap (fun it =>
          (current.find? (fun t => decide (tableKey t = tableKey it))).map
            (fun ex => mergeTable ex it)),
       current.filter (fun ct =>
          !(imported.any (fun it => decide (tableKey it = tableKey ct))))⟩ := by
  unfold reconcileTables
  rw [buildCurrentTableMap_eq current hc]
  simp only [TableDiff.mk.injEq]
  refine ⟨?_, ?_, ?_⟩
  · rw [processImported_adds imported _ hi]
    apply List.filter_congr
    intro it _
    rw [jsMapGet_mapList]
  · rw [processImported_upds imported _ hi]
    apply filterMap_congr_mem
    intro it _
    rw [jsMapGet_mapList]
  · rw [processImported_finalMap imported _, List.filter_map, jsMapValues,
      List.map_map]
    simp [Function.comp_def]

/-- C1: for every current diagram and imported schema (under the §3 key
uniqueness invariants), table reconciliation matches by the (schema, name)
key: each key-matched imported table yields an update entry keeping the
existing table's id, x, y, color while taking the imported content, inside
which a field whose name matches an existing field keeps the existing field
id and an unmatched field keeps its freshly generated id; an unmatched
imported table is added unchanged; and the removal set is exactly the set of
current tables whose key matched no imported table. -/
theorem dbml_table_reconciliation (current imported : List DBTable)
    (hc : (current.map tableKey).Nodup) (hi : (imported.map tableKey).Nodup) :
    (∀ it ∈ imported, ∀ ct ∈ current, tableKey ct = tableKey it →
        mergeTable ct it ∈ (reconcileTables current imported).tablesToUpdate ∧
        (mergeTable ct it).id = ct.id ∧ (mergeTable ct it).x = ct.x ∧
        (mergeTable ct it).y = ct.y ∧ (mergeTable ct it).color = ct.color ∧
        (mergeTable ct it).schema = it.schema ∧ (mergeTable ct it).name = it.name ∧
        (mergeTable ct it).fields = preserveFields ct it ∧
        (∀ f ∈ it.fields, ∀ ef,
            ct.fields.find? (fun g => decide (g.name = f.name)) = some ef →
            { f with id := ef.id } ∈ preserveFields ct it) ∧
        (∀ f ∈ it.fields,
            ct.fields.find? (fun g => decide (g.name = f.name)) = none →
            f ∈ preserveFields ct it)) ∧
    (∀ it ∈ imported, (∀ ct ∈ current, tableKey ct ≠ tableKey it) →
        it ∈ (reconcileTables current imported).tablesToAdd) ∧
    (∀ ct, ct ∈ (reconcileTables current imported).tablesToRemove ↔
        ct ∈ current ∧ ∀ it ∈ imported, tableKey it ≠ tableKey ct) := by
  rw [reconcileTables_eq current imported hc hi]
  refine ⟨?_, ?_, ?_⟩
  · intro it hit ct hct hkey
    have hfind : current.find? (fun t => decide (tableKey t = tableKey it)) = some ct :=
      find?_key_eq tableKey (tableKey it) current ct hc hct hkey
    refine ⟨?_, rfl, rfl, rfl, rfl, rfl, rfl, rfl, ?_, ?_⟩
    · exact List.mem_filterMap.mpr ⟨it, hit, by rw [hfind]; rfl⟩
    · intro f hf ef hef
      rw [preserveFields]
      exact List.mem_map.mpr ⟨f, hf, by rw [hef]⟩
    · intro f hf hef
      rw [preserveFields]
      exact List.mem_map.mpr ⟨f, hf, by rw [hef]⟩
  · intro it hit hno
    have hfind : current.find? (fun t => decide (tableKey t = tableKey it)) = none := by
      rw [List.find?_eq_none]
      intro x hx
      simpa using hno x hx
    exact List.mem_filter.mpr ⟨hit, by simp [hfind]⟩
  · intro ct
    constructor
    · intro hmem
      have hsplit := List.mem_filter.mp hmem
      refine ⟨hsplit.1, ?_⟩
      intro it hit heq
      have hb := hsplit.2
      simp only [Bool.not_eq_true', List.any_eq_false, decide_eq_true_eq] at hb
      exact hb it hit heq
    · rintro ⟨hmem, hno⟩
      refine List.mem_filter.mpr ⟨hmem, ?_⟩
      simp only [Bool.not_eq_true', List.any_eq_false, decide_eq_true_eq]
      exact hno

/-- A concrete current table used to witness the table reconciliation. -/
def witnessCurrentTable : DBTable :=
  ⟨"t1", "", "users", [⟨"f1", "id", "int"⟩, ⟨"f2", "name", "text"⟩], 10, 20, "#fff"⟩

/-- A concrete imported table (fresh ids, one added field) used to witness
the table reconciliation. -/
def witnessImportedTable : DBTable :=
  ⟨"i1", "", "users",
   [⟨"g1", "id", "int"⟩, ⟨"g2", "name", "text"⟩, ⟨"g3", "email", "text"⟩],
   0, 0, "c"⟩

theorem dbml_table_reconciliation_witness :
    mergeTable witnessCurrentTable witnessImportedTable ∈
      (reconcileTables [witnessCurrentTable] [witnessImportedTable]).tablesToUpdate ∧
    (mergeTable witnessCurrentTable witnessImportedTable).id = witnessCurrentTable.id := by
  have h := dbml_table_reconciliation [witnessCurrentTable] [witnessImportedTable]
    (by decide) (by decide)
  have h1 := h.1 witnessImportedTable (by decide) witnessCurrentTable (by decide) (by decide)
  exact ⟨h1.1, h1.2.1⟩

/-! ### Round trip (C2)

The export/import pair (`exportBaseSQL` + `importer.import` +
`importDBMLToDiagram`) is an external library, not part of the reviewed
sources.  Its round-trip behaviour is modelled from the spec. -/

/-- Modelled from the spec: a field of the re-imported schema corresponding
to an original field — "structurally identical ... but with freshly
generated, diagram-unaware identities" (§3 Imported Schema): same name and
type, arbitrary id. -/
def fieldReimport (orig imp : DBField) : Prop :=
  imp.name = orig.name ∧ imp.ty = orig.ty

/-- Modelled from the spec: a table of the re-imported schema corresponding
to an original table (§3 Imported Schema): same schema and name, fields
structurally identical in order, all ids freshly generated (arbitrary), and
layout attributes diagram-only (arbitrary). -/
def tableReimport (orig imp : DBTable) : Prop :=
  imp.schema = orig.schema ∧ imp.name = orig.name ∧
    List.Forall₂ fieldReimport orig.fields imp.fields

theorem tableKey_reimport {orig imp : DBTable} (h : tableReimport orig imp) :
    tableKey imp = tableKey orig := by
  unfold tableKey
  rw [h.1, h.2.1]

theorem forall₂_mem_right {α β : Type} {r : α → β → Prop} :
    ∀ {l₁ : List α} {l₂ : List β}, List.Forall₂ r l₁ l₂ →
      ∀ b ∈ l₂, ∃ a ∈ l₁, r a b := by
  intro l₁ l₂ h
  induction h with
  | nil => intro b hb; cases hb
  | cons h₁ _ ih =>
    intro b hb
    rcases List.mem_cons.mp hb with rfl | hb'
    · exact ⟨_, by simp, h₁⟩
    · obtain ⟨a, ha, har⟩ := ih b hb'
      exact ⟨a, by simp [ha], har⟩

theorem forall₂_mem_left {α β : Type} {r : α → β → Prop} :
    ∀ {l₁ : List α} {l₂ : List β}, List.Forall₂ r l₁ l₂ →
      ∀ a ∈ l₁, ∃ b ∈ l₂, r a b := by
  intro l₁ l₂ h
  induction h with
  | nil => intro a ha; cases ha
  | cons h₁ _ ih =>
    intro a ha
    rcases List.mem_cons.mp ha with rfl | ha'
    · exact ⟨_, by simp, h₁⟩
    · obtain ⟨b, hb, hbr⟩ := ih a ha'
      exact ⟨b, by simp [hb], hbr⟩

theorem preserveFields_reimport_aux (full : List DBField)
    (hnd : (full.map DBField.name).Nodup) :
    ∀ {fs gs : List DBField}, List.Forall₂ fieldReimport fs gs →
      (∀ f ∈ fs, f ∈ full) →
      gs.map (fun importedField =>
        match full.find? (fun f => decide (f.name = importedField.name)) with
        | some existingField => { importedField with id := existingField.id }
        | none => importedField) = fs := by
  intro fs gs h
  induction h with
  | nil => intro _; rfl
  | @cons a b as bs h₁ _ ih =>
    intro hsub
    have hfind : full.find? (fun f => decide (f.name = b.name)) = some a :=
      find?_key_eq DBField.name b.name full a hnd (hsub a (by simp)) h₁.1.symm
    have hhead : ({ b with id := a.id } : DBField) = a := by
      obtain ⟨hn, ht⟩ := h₁
      cases a; cases b
      simp_all
    rw [List.map_cons, hfind]
    simp only [hhead]
    rw [ih (fun f hf => hsub f (by simp [hf]))]

theorem preserveFields_reimport (ex imp : DBTable)
    (hnd : (ex.fields.map DBField.name).Nodup)
    (h : List.Forall₂ fieldReimport ex.fields imp.fields) :
    preserveFields ex imp = ex.fields := by
  rw [preserveFields]
  exact preserveFields_reimport_aux ex.fields hnd h (fun f hf => hf)

theorem mergeTable_reimport (ex imp : DBTable)
    (hnd : (ex.fields.map DBField.name).Nodup)
    (h : tableReimport ex imp) : mergeTable ex imp = ex := by
  have hf := preserveFields_reimport ex imp hnd h.2.2
  obtain ⟨hs, hn, _⟩ := h
  cases ex; cases imp
  simp_all [mergeTable]

theorem reimport_keys_eq {current imported : List DBTable}
    (h : List.Forall₂ tableReimport current imported) :
    imported.map tableKey = current.map tableKey := by
  induction h with
  | nil => rfl
  | cons h₁ _ ih => simp [tableKey_reimport h₁, ih]

theorem upds_reimport_aux (full : List DBTable)
    (hc : (full.map tableKey).Nodup)
    (hfnd : ∀ t ∈ full, (t.fields.map DBField.name).Nodup) :
    ∀ {cur imp : List DBTable}, List.Forall₂ tableReimport cur imp →
      (∀ t ∈ cur, t ∈ full) →
      imp.filterMap (fun it =>
        (full.find? (fun t => decide (tableKey t = tableKey it))).map
          (fun ex => mergeTable ex it)) = cur := by
  intro cur imp h
  induction h with
  | nil => intro _; rfl
  | @cons a b as bs h₁ _ ih =>
    intro hsub
    have hfind : full.find? (fun t => decide (tableKey t = tableKey b)) = some a :=
      find?_key_eq tableKey (tableKey b) full a hc (hsub a (by simp))
        (tableKey_reimport h₁).symm
    rw [List.filterMap_cons, hfind]
    simp only [Option.map_some']
    rw [mergeTable_reimport a b (hfnd a (hsub a (by simp))) h₁,
      ih (fun t ht => hsub t (by simp [ht]))]

/-- The in-memory reconstruction of the diagram's table list after the five
mutation steps (`updatedDiagram.tables`): drop the removed tables, substitute
the updated ones by id, append the additions. -/
def mergedTables (currentTables : List DBTable) (d : TableDiff) : List DBTable :=
  ((currentTables.filter (fun t =>
      !(d.tablesToRemove.any (fun r => decide (r.id = t.id))))).map
    (fun t => ((d.tablesToUpdate.find? (fun u => decide (u.id = t.id))).getD t)))
    ++ d.tablesToAdd

/-- C2 (amended): re-importing the exported text leaves the additions and
removals empty, and the update set consists exactly of the current tables
themselves (ids, positions, colors and field ids all preserved), so
re-applying produces no net change to the diagram's tables; the update set is
not empty for a non-empty diagram. -/
theorem dbml_round_trip (current imported : List DBTable)
    (hc : (current.map tableKey).Nodup)
    (hid : (current.map DBTable.id).Nodup)
    (hfnd : ∀ t ∈ current, (t.fields.map DBField.name).Nodup)
    (h : List.Forall₂ tableReimport current imported) :
    (reconcileTables current imported).tablesToAdd = [] ∧
    (reconcileTables current imported).tablesToRemove = [] ∧
    (reconcileTables current imported).tablesToUpdate = current ∧
    mergedTables current (reconcileTables current imported) = current := by
  have hi : (imported.map tableKey).Nodup := by
    rw [reimport_keys_eq h]; exact hc
  rw [reconcileTables_eq current imported hc hi]
  have hadd : imported.filter (fun it =>
      (current.find? (fun t => decide (tableKey t = tableKey it))).isNone) = [] := by
    rw [List.filter_eq_nil_iff]
    intro it hit
    obtain ⟨ct, hct, hr⟩ := forall₂_mem_right h it hit
    have hf : current.find? (fun t => decide (tableKey t = tableKey it)) = some ct :=
      find?_key_eq tableKey (tableKey it) current ct hc hct (tableKey_reimport hr).symm
    simp [hf]
  have hrem : current.filter (fun ct =>
      !(imported.any (fun it => decide (tableKey it = tableKey ct)))) = [] := by
    rw [List.filter_eq_nil_iff]
    intro ct hct
    obtain ⟨it, hit, hr⟩ := forall₂_mem_left h ct hct
    have hany : imported.any (fun it => decide (tableKey it = tableKey ct)) = true :=
      List.any_eq_true.mpr ⟨it, hit, by simp [tableKey_reimport hr]⟩
    simp [hany]
  have hupd := upds_reimport_aux current hc hfnd h (fun t ht => ht)
  refine ⟨hadd, hrem, hupd, ?_⟩
  show mergedTables current ⟨_, _, _⟩ = current
  rw [mergedTables]
  simp only [hadd, hrem, hupd, List.any_nil, Bool.not_false, List.filter_true,
    List.append_nil]
  have hmap : ∀ t ∈ current,
      ((current.find? (fun u => decide (u.id = t.id))).getD t) = t := by
    intro t ht
    rw [find?_key_eq DBTable.id t.id current t hid ht rfl]
    rfl
  calc current.map (fun t => ((current.find? (fun u => decide (u.id = t.id))).getD t))
      = current.map id := List.map_congr_left hmap
    _ = current := List.map_id current

/-- A concrete one-table diagram for the round-trip claim. -/
def c2CurrentTable : DBTable :=
  ⟨"t1", "", "users", [⟨"f1", "id", "int"⟩, ⟨"f2", "name", "text"⟩], 10, 20, "#fff"⟩

/-- Its faithful re-import: identical structure, fresh ids, no layout. -/
def c2ImportedTable : DBTable :=
  ⟨"i9", "", "users", [⟨"h1", "id", "int"⟩, ⟨"h2", "name", "text"⟩], 0, 0, "c"⟩

/-- C2 (counterexample to the claim as stated): on a one-table diagram, a
faithful re-import of the exported text yields a reconciliation result whose
`tablesToUpdate` is NOT empty — the matched table is re-issued as an update
(preserving its identity), so the three sets are not all empty. -/
theorem dbml_round_trip_counterexample :
    List.Forall₂ tableReimport [c2CurrentTable] [c2ImportedTable] ∧
    (reconcileTables [c2CurrentTable] [c2ImportedTable]).tablesToUpdate ≠ [] := by
  constructor
  · simp [List.forall₂_cons, tableReimport, fieldReimport,
      c2CurrentTable, c2ImportedTable]
  · decide

theorem dbml_round_trip_witness :
    (reconcileTables [c2CurrentTable] [c2ImportedTable]).tablesToAdd = [] ∧
    (reconcileTables [c2CurrentTable] [c2ImportedTable]).tablesToRemove = [] ∧
    (reconcileTables [c2CurrentTable] [c2ImportedTable]).tablesToUpdate = [c2CurrentTable] ∧
    mergedTables [c2CurrentTable] (reconcileTables [c2CurrentTable] [c2ImportedTable]) =
      [c2CurrentTable] := by
  refine dbml_round_trip [c2CurrentTable] [c2ImportedTable]
    (by decide) (by decide) (by decide) ?_
  simp [List.forall₂_cons, tableReimport, fieldReimport,
    c2CurrentTable, c2ImportedTable]

/-! ### Relationship Reconciler (auto-apply session)

Embeds the relationship removal pass (`importedRelationshipMap` +
`relationshipsToRemove`) and the addition pass (`tableNameToCurrentId` +
`relationshipsToAdd`) of `EditorTableDBML.applyDBMLChanges`. -/

/-- The relationship key string
`${sourceTable}.${sourceField}:${targetTable}.${targetField}`. -/
def relKey (sTable sField tTable tField : String) : String :=
  sTable ++ "." ++ sField ++ ":" ++ tTable ++ "." ++ tField

/-- `importedRelationshipMap`: for each imported relationship whose endpoints
resolve inside the imported diagram, record its key and the reverse-direction
key.  The map stores only `true` values and is queried with `has`, so it is
embedded as the list of recorded keys. -/
def importedRelKeys (importedTables : List DBTable)
    (importedRels : List DBRelationship) : List String :=
  importedRels.foldl (fun acc rel =>
    match importedTables.find? (fun t => decide (t.id = rel.sourceTableId)),
        importedTables.find? (fun t => decide (t.id = rel.targetTableId)) with
    | some importedSourceTable, some importedTargetTable =>
      match importedSourceTable.fields.find? (fun f => decide (f.id = rel.sourceFieldId)),
          importedTargetTable.fields.find? (fun f => decide (f.id = rel.targetFieldId)) with
      | some importedSourceField, some importedTargetField =>
        acc ++
          [relKey importedSourceTable.name importedSourceField.name
            importedTargetTable.name importedTargetField.name,
           relKey importedTargetTable.name importedTargetField.name
            importedSourceTable.name importedSourceField.name]
      | _, _ => acc
    | _, _ => acc) []

/-- The trailing check of the removal filter (updated tables whose relevant
field names disappeared), `sourceTable || targetTable` branch onwards. -/
def fieldChangeRemoval (currentTables tablesToUpdate : List DBTable)
    (rel : DBRelationship) : Bool :=
  let sourceTable := tablesToUpdate.find? (fun t => decide (t.id = rel.sourceTableId))
  let targetTable := tablesToUpdate.find? (fun t => decide (t.id = rel.targetTableId))
  if sourceTable.isSome || targetTable.isSome then
    let sourceTableFields :=
      ((currentTables.find? (fun t => decide (t.id = rel.sourceTableId))).map
        DBTable.fields).getD []
    let targetTableFields :=
      ((currentTables.find? (fun t => decide (t.id = rel.targetTableId))).map
        DBTable.fields).getD []
    let sourceFieldName :=
      (sourceTableFields.find? (fun f => decide (f.id = rel.sourceFieldId))).map
        DBField.name
    let targetFieldName :=
      (targetTableFields.find? (fun f => decide (f.id = rel.targetFieldId))).map
        DBField.name
    match sourceFieldName, targetFieldName with
    | some sfn, some tfn =>
      (match sourceTable with
        | some st =>
          if !(st.fields.any (fun field => decide (field.name = sfn))) then
            true
          else
            match targetTable with
            | some tt => !(tt.fields.any (fun field => decide (field.name = tfn)))
            | none => false
        | none =>
          match targetTable with
          | some tt => !(tt.fields.any (fun field => decide (field.name = tfn)))
          | none => false)
    | _, _ => true
  else
    false

/-- The removal filter predicate of the auto-apply session: remove when an
endpoint table is removed; else remove when the relationship, keyed by
(table.field:table.field) in either direction, is absent from the imported
relationship key set (provided its endpoints resolve in the current diagram);
else apply the updated-tables field-name check. -/
def shouldRemoveRel (currentTables tablesToRemove tablesToUpdate : List DBTable)
    (keys : List String) (rel : DBRelationship) : Bool :=
  let isConnectedToRemovedTable := tablesToRemove.any (fun table =>
    decide (table.id = rel.sourceTableId) || decide (table.id = rel.targetTableId))
  if isConnectedToRemovedTable then
    true
  else
    let importedAbsent : Bool :=
      match currentTables.find? (fun t => decide (t.id = rel.sourceTableId)),
          currentTables.find? (fun t => decide (t.id = rel.targetTableId)) with
      | some currentSourceTable, some currentTargetTable =>
        match currentSourceTable.fields.find? (fun f => decide (f.id = rel.sourceFieldId)),
            currentTargetTable.fields.find? (fun f => decide (f.id = rel.targetFieldId)) with
        | some currentSourceField, some currentTargetField =>
          !(keys.contains (relKey currentSourceTable.name currentSourceField.name
              currentTargetTable.name currentTargetField.name)) &&
          !(keys.contains (relKey currentTargetTable.name currentTargetField.name
              currentSourceTable.name currentSourceField.name))
        | _, _ => false
      | _, _ => false
    importedAbsent || fieldChangeRemoval currentTables tablesToUpdate rel

/-- `relationshipsToRemove` of the auto-apply session. -/
def relationshipsToRemoveOf (currentTables : List DBTable)
    (currentRels : List DBRelationship)
    (tablesToRemove tablesToUpdate : List DBTable)
    (keys : List String) : List DBRelationship :=
  currentRels.filter (shouldRemoveRel currentTables tablesToRemove tablesToUpdate keys)

/-- `tableNameToCurrentId`: the post-reconciliation tables keyed by table
name alone (no schema qualifier), later entries overwriting earlier ones. -/
def buildTableNameToCurrentId (tables : List DBTable) : List (String × String) :=
  tables.foldl (fun m table => jsMapSet m table.name table.id) []

/-- The data gathered by the successful resolution chain of one imported
relationship in the addition pass. -/
structure ResolvedRel where
  importedSourceTable : DBTable
  importedTargetTable : DBTable
  importedSourceField : DBField
  importedTargetField : DBField
  currentSourceTableId : String
  currentTargetTableId : String
  currentSourceTable : DBTable
  currentTargetTable : DBTable
  currentSourceField : DBField
  currentTargetField : DBField
  deriving Repr, DecidableEq

/-- The endpoint resolution chain of the addition pass: imported source and
target tables by id, imported fields by id, current table ids through the
name-only map, current tables by those ids, current fields by name.  Each
failing step returns `null` (the relationship is skipped). -/
def resolveRelEndpoints (importedTables updatedTables : List DBTable)
    (rel : DBRelationship) : Option ResolvedRel := do
  let importedSourceTable ←
    importedTables.find? (fun t => decide (t.id = rel.sourceTableId))
  let importedTargetTable ←
    importedTables.find? (fun t => decide (t.id = rel.targetTableId))
  let importedSourceField ←
    importedSourceTable.fields.find? (fun f => decide (f.id = rel.sourceFieldId))
  let importedTargetField ←
    importedTargetTable.fields.find? (fun f => decide (f.id = rel.targetFieldId))
  let currentSourceTableId ←
    jsMapGet (buildTableNameToCurrentId updatedTables) importedSourceTable.name
  let currentTargetTableId ←
    jsMapGet (buildTableNameToCurrentId updatedTables) importedTargetTable.name
  let currentSourceTable ←
    updatedTables.find? (fun t => decide (t.id = currentSourceTableId))
  let currentTargetTable ←
    updatedTables.find? (fun t => decide (t.id = currentTargetTableId))
  let currentSourceField ←
    currentSourceTable.fields.find? (fun f => decide (f.name = importedSourceField.name))
  let currentTargetField ←
    currentTargetTable.fields.find? (fun f => decide (f.name = importedTargetField.name))
  some ⟨importedSourceTable, importedTargetTable,
    importedSourceField, importedTargetField,
    currentSourceTableId, currentTargetTableId,
    currentSourceTable, currentTargetTable,
    currentSourceField, currentTargetField⟩

/-- The duplicate check of the addition pass: an existing relationship with
the same resolved endpoint ids, in either direction. -/
def findExistingDuplicate (currentRels : List DBRelationship)
    (r : ResolvedRel) : Option DBRelationship :=
  currentRels.find? (fun existingRel =>
    (decide (existingRel.sourceTableId = r.currentSourceTableId) &&
     decide (existingRel.targetTableId = r.currentTargetTableId) &&
     decide (existingRel.sourceFieldId = r.currentSourceField.id) &&
     decide (existingRel.targetFieldId = r.currentTargetField.id)) ||
    (decide (existingRel.sourceTableId = r.currentTargetTableId) &&
     decide (existingRel.targetTableId = r.currentSourceTableId) &&
     decide (existingRel.sourceFieldId = r.currentTargetField.id) &&
     decide (existingRel.targetFieldId = r.currentSourceField.id)))

/-- One step of the `relationshipsToAdd` map: resolve the endpoints, skip on
failure or on an existing duplicate, otherwise build the new relationship
with a freshly generated id. -/
def mapImportedRelationship (importedTables updatedTables : List DBTable)
    (currentRels : List DBRelationship) (freshId : String) (now : Nat)
    (rel : DBRelationship) : Option DBRelationship :=
  match resolveRelEndpoints importedTables updatedTables rel with
  | none => none
  | some r =>
    match findExistingDuplicate currentRels r with
    | some _ => none
    | none =>
      some
        { id := freshId
          sourceTableId := r.currentSourceTableId
          targetTableId := r.currentTargetTableId
          sourceFieldId := r.currentSourceField.id
          targetFieldId := r.currentTargetField.id
          sourceCardinality := rel.sourceCardinality
          targetCardinality := rel.targetCardinality
          sourceSchema := r.currentSourceTable.schema
          targetSchema := r.currentTargetTable.schema
          name := r.importedSourceTable.name ++ "_" ++ r.importedSourceField.name
            ++ "_" ++ r.importedTargetTable.name ++ "_" ++ r.importedTargetField.name
          createdAt := now }

/-- `relationshipsToAdd`: map every imported relationship and drop the
`null`s (`generateId()` is modelled by indexing a fresh-id supply). -/
def relationshipsToAddOf (importedTables updatedTables : List DBTable)
    (currentRels : List DBRelationship) (genId : Nat → String) (now : Nat)
    (importedRels : List DBRelationship) : List DBRelationship :=
  if importedRels.length > 0 then
    importedRels.enum.filterMap (fun p =>
      mapImportedRelationship importedTables updatedTables currentRels
        (genId p.1) now p.2)
  else
    []

/-! ### Apply Pipeline (store mutation trace, C4) -/

/-- One call against the diagram store. -/
inductive StoreMutation
  | removeTables (ids : List String)
  | removeRelationships (ids : List String)
  | updateTables (tables : List DBTable)
  | addTables (tables : List DBTable)
  | addRelationships (rels : List DBRelationship)
  deriving Repr, DecidableEq

/-- Size of a mutation's operand set. -/
def mutationSize : StoreMutation → Nat
  | .removeTables ids => ids.length
  | .removeRelationships ids => ids.length
  | .updateTables tables => tables.length
  | .addTables tables => tables.length
  | .addRelationships rels => rels.length

/-- The sequence of awaited store calls issued by one apply run: each of the
five steps is guarded by a `length > 0` check and executed in the fixed
source order. -/
def applyPipelineTrace (current imported : DBDiagram) (genId : Nat → String)
    (now : Nat) : List StoreMutation :=
  let diff := reconcileTables current.tables imported.tables
  let keys := importedRelKeys imported.tables imported.relationships
  let relationshipsToRemove := relationshipsToRemoveOf current.tables
    current.relationships diff.tablesToRemove diff.tablesToUpdate keys
  let updatedTables := mergedTables current.tables diff
  let relationshipsToAdd := relationshipsToAddOf imported.tables updatedTables
    current.relationships genId now imported.relationships
  (if diff.tablesToRemove.length > 0 then
    [StoreMutation.removeTables (diff.tablesToRemove.map DBTable.id)] else []) ++
  (if relationshipsToRemove.length > 0 then
    [StoreMutation.removeRelationships (relationshipsToRemove.map DBRelationship.id)]
   else []) ++
  (if diff.tablesToUpdate.length > 0 then
    [StoreMutation.updateTables diff.tablesToUpdate] else []) ++
  (if diff.tablesToAdd.length > 0 then
    [StoreMutation.addTables diff.tablesToAdd] else []) ++
  (if relationshipsToAdd.length > 0 then
    [StoreMutation.addRelationships relationshipsToAdd] else [])

/-! ### Edit Session Controller (auto-apply entry guards, C5) -/

/-- A parse error as displayed: message and 1-based line/column. -/
structure DBMLError where
  message : String
  line : Nat
  column : Nat
  deriving Repr, DecidableEq

/-- The session state read at the top of `applyDBMLChanges`. -/
structure SessionState where
  dbmlError : Option DBMLError
  changesInProgress : Bool
  isApplying : Bool
  content : String
  originalDbmlContent : String
  deriving Repr, DecidableEq

/-- Outcome of one invocation of the auto-apply `applyDBMLChanges`. -/
inductive ApplyResult
  | skipped
  | applied (trace : List StoreMutation)
  | failed
  deriving Repr, DecidableEq

/-- The store mutations an invocation performed. -/
def mutationsOf : ApplyResult → List StoreMutation
  | .applied trace => trace
  | _ => []

/-- The auto-apply `applyDBMLChanges(content)`: return early when an error is
present or a run is already in flight; return early when the content equals
the last applied baseline; otherwise run the pipeline.  The imported diagram
(the external `importDBMLToDiagram(content)` result) is a parameter.  The
`catch` branch of the source converts an exception of the awaited calls into
a notification; the embedded reconciliation itself is total, so the `failed`
outcome is never produced. -/
def applyDBMLChanges (s : SessionState) (current imported : DBDiagram)
    (genId : Nat → String) (now : Nat) : ApplyResult :=
  if s.dbmlError.isSome || s.changesInProgress || s.isApplying then
    .skipped
  else if s.content = s.originalDbmlContent then
    .skipped
  else
    .applied (applyPipelineTrace current imported genId now)

/-! ### Schema Importer Adapter error extraction (C9)

`parseDBMLError` receives the exception thrown by the external parser: either
a string (JSON-parsed first) or an object.  A payload is embedded as the
shape the function can observe. -/

/-- A diagnostic's start position. -/
structure DiagStart where
  line : Nat
  column : Nat
  deriving Repr, DecidableEq

/-- A diagnostic's location. -/
structure DiagLocation where
  start : DiagStart
  deriving Repr, DecidableEq

/-- One parser diagnostic. -/
structure Diag where
  message : String
  location : DiagLocation
  deriving Repr, DecidableEq

/-- The result of `JSON.parse` on a string payload, as observed by the
function: either a value with a `diags` list or a value without one. -/
inductive ParsedJson
  | withDiags (diags : List Diag)
  | withoutDiags
  deriving Repr, DecidableEq

/-- The exception payload.  `jsonString none` models a string on which
`JSON.parse` throws (the `catch` then yields `null`); `objOther` models a
non-string value without a `diags` property. -/
inductive ErrorPayload
  | jsonString (parsed : Option ParsedJson)
  | objWithDiags (diags : List Diag)
  | objOther
  deriving Repr, DecidableEq

/-- `parseDBMLError`: extract the first diagnostic's message and start
line/column; return `null` in every other case. -/
def parseDBMLError : ErrorPayload → Option DBMLError
  | .jsonString none => none
  | .jsonString (some .withoutDiags) => none
  | .jsonString (some (.withDiags [])) => none
  | .jsonString (some (.withDiags (diag :: _))) =>
    some ⟨diag.message, diag.location.start.line, diag.location.start.column⟩
  | .objWithDiags [] => none
  | .objWithDiags (diag :: _) =>
    some ⟨diag.message, diag.location.start.line, diag.location.start.column⟩
  | .objOther => none

/-- The `diags` list the extraction can reach in a payload, when any. -/
def payloadDiags : ErrorPayload → Option (List Diag)
  | .jsonString (some (.withDiags diags)) => some diags
  | .objWithDiags diags => some diags
  | _ => none

/-! ### Editor content update after an apply (C8) -/

/-- The mutable interaction cells read by `updateEditorContent`. -/
structure EditorRefs where
  userHasEdited : Bool
  lastUpdateTime : Nat
  deriving Repr, DecidableEq

/-- The editor text after `updateEditorContent(newContent)`: skip the
programmatic replacement when the user edited within the last 500ms, or when
the text is already equal; otherwise push the new content. -/
def updateEditorContentText (refs : EditorRefs) (now : Nat)
    (currentText newContent : String) : String :=
  if refs.userHasEdited && decide (now - refs.lastUpdateTime < 500) then
    currentText
  else if currentText = newContent then
    currentText
  else
    newContent

/-- The session cells written by the tail of a successful apply. -/
structure ApplyFinishState where
  editorText : String
  originalDbmlContent : String
  lastValidContent : String
  deriving Repr, DecidableEq

/-- The tail of a successful apply run: when `wasUserEditing` (captured at
the start of the run) the editor is left alone and only the internal
baseline cells are updated; otherwise `updateEditorContent` runs (with its
own recency check) and the baseline cells are updated the same way. -/
def finishApply (wasUserEditing : Bool) (refs : EditorRefs) (now : Nat)
    (editorText regenerated : String) : ApplyFinishState :=
  if wasUserEditing then
    ⟨editorText, regenerated, regenerated⟩
  else
    ⟨updateEditorContentText refs now editorText regenerated,
     regenerated, regenerated⟩

/-- The five store calls of one apply run in source order, before the
emptiness guards. -/
def applyPipelineSteps (current imported : DBDiagram) (genId : Nat → String)
    (now : Nat) : List StoreMutation :=
  let diff := reconcileTables current.tables imported.tables
  let keys := importedRelKeys imported.tables imported.relationships
  let relationshipsToRemove := relationshipsToRemoveOf current.tables
    current.relationships diff.tablesToRemove diff.tablesToUpdate keys
  let updatedTables := mergedTables current.tables diff
  let relationshipsToAdd := relationshipsToAddOf imported.tables updatedTables
    current.relationships genId now imported.relationships
  [StoreMutation.removeTables (diff.tablesToRemove.map DBTable.id),
   StoreMutation.removeRelationships (relationshipsToRemove.map DBRelationship.id),
   StoreMutation.updateTables diff.tablesToUpdate,
   StoreMutation.addTables diff.tablesToAdd,
   StoreMutation.addRelationships relationshipsToAdd]

/-- C4: every apply run issues its store mutations as exactly the
remove-tables, remove-relationships, update-tables, add-tables,
add-relationships sequence restricted to the steps whose operand set is
nonempty — so the five calls occur in that strict order, and a step with an
empty operand set issues no call at all. -/
theorem dbml_apply_pipeline_order (current imported : DBDiagram)
    (genId : Nat → String) (now : Nat) :
    applyPipelineTrace current imported genId now =
      (applyPipelineSteps current imported genId now).filter
        (fun m => decide (0 < mutationSize m)) ∧
    ∀ m ∈ applyPipelineTrace current imported genId now, 0 < mutationSize m := by
  constructor
  · unfold applyPipelineTrace applyPipelineSteps
    simp only [List.filter_cons, List.filter_nil, mutationSize,
      List.length_map, decide_eq_true_eq]
    split_ifs <;> simp_all
  · intro m hm
    unfold applyPipelineTrace at hm
    simp only [List.mem_append] at hm
    rcases hm with ((((h | h) | h) | h) | h) <;>
      · split_ifs at h with hc <;> simp_all [mutationSize]

/-- C5: when a parse error is present in the session state, invoking the
apply operation returns early as a no-op: no store mutation is performed and
no ApplyError (`failed`) outcome arises. -/
theorem dbml_error_blocks_apply (s : SessionState) (current imported : DBDiagram)
    (genId : Nat → String) (now : Nat) (e : DBMLError)
    (h : s.dbmlError = some e) :
    applyDBMLChanges s current imported genId now = ApplyResult.skipped ∧
    mutationsOf (applyDBMLChanges s current imported genId now) = [] ∧
    applyDBMLChanges s current imported genId now ≠ ApplyResult.failed := by
  have hs : s.dbmlError.isSome = true := by simp [h]
  unfold applyDBMLChanges
  simp [hs, mutationsOf]

theorem dbml_error_blocks_apply_witness :
    applyDBMLChanges ⟨some ⟨"syntax error", 1, 2⟩, false, false, "Table a", "Table b"⟩
        ⟨[], []⟩ ⟨[], []⟩ (fun _ => "r") 0 = ApplyResult.skipped ∧
    mutationsOf (applyDBMLChanges ⟨some ⟨"syntax error", 1, 2⟩, false, false,
        "Table a", "Table b"⟩ ⟨[], []⟩ ⟨[], []⟩ (fun _ => "r") 0) = [] := by
  have h := dbml_error_blocks_apply
    ⟨some ⟨"syntax error", 1, 2⟩, false, false, "Table a", "Table b"⟩
    ⟨[], []⟩ ⟨[], []⟩ (fun _ => "r") 0 ⟨"syntax error", 1, 2⟩ rfl
  exact ⟨h.1, h.2.1⟩

/-- C9: the error extraction returns the first diagnostic's message and
start line/column whenever the payload (stringified-JSON or structured)
carries a nonempty `diags` list, and returns no localized error (`none`) for
every payload from which extraction fails. -/
theorem dbml_error_extraction (p : ErrorPayload) :
    parseDBMLError p =
      match payloadDiags p with
      | some (diag :: _) =>
        some ⟨diag.message, diag.location.start.line, diag.location.start.column⟩
      | _ => none := by
  rcases p with parsed | ds | _
  · rcases parsed with _ | pj
    · rfl
    · rcases pj with ds | _
      · rcases ds with _ | ⟨d, t⟩ <;> rfl
      · rfl
  · rcases ds with _ | ⟨d, t⟩ <;> rfl
  · rfl

/-- C8: if the last keystroke is within the 500ms recency window when an
apply completes, the programmatic replacement of the editor content is
suppressed (the text is unchanged) while the regenerated DBML is still
recorded as the new baseline and last-valid content — whichever way the
`wasUserEditing` snapshot taken at the start of the run came out. -/
theorem dbml_typing_suppression (wasUserEditing : Bool) (refs : EditorRefs)
    (now lastKeystroke : Nat) (editorText regenerated : String)
    (hEdited : refs.userHasEdited = true)
    (hMono : lastKeystroke ≤ refs.lastUpdateTime)
    (hRecent : now < lastKeystroke + 500) :
    (finishApply wasUserEditing refs now editorText regenerated).editorText =
      editorText ∧
    (finishApply wasUserEditing refs now editorText
      regenerated).originalDbmlContent = regenerated ∧
    (finishApply wasUserEditing refs now editorText
      regenerated).lastValidContent = regenerated := by
  have hlt : now - refs.lastUpdateTime < 500 := by omega
  cases wasUserEditing with
  | true => exact ⟨rfl, rfl, rfl⟩
  | false => simp [finishApply, updateEditorContentText, hEdited, hlt]

theorem dbml_typing_suppression_witness :
    (finishApply false ⟨true, 1000⟩ 1400 "Table a {}" "Table b {}").editorText =
      "Table a {}" ∧
    (finishApply false ⟨true, 1000⟩ 1400 "Table a {}"
      "Table b {}").originalDbmlContent = "Table b {}" ∧
    (finishApply false ⟨true, 1000⟩ 1400 "Table a {}"
      "Table b {}").lastValidContent = "Table b {}" :=
  dbml_typing_suppression false ⟨true, 1000⟩ 1400 1000 "Table a {}" "Table b {}"
    rfl (by decide) (by decide)

/-- C6: an imported relationship whose endpoints resolve to a quadruple for
which the current diagram already holds a relationship with the same resolved
endpoint ids — in either direction — produces no new relationship in the
addition pass. -/
theorem dbml_relationship_dedup (importedTables updatedTables : List DBTable)
    (currentRels : List DBRelationship) (freshId : String) (now : Nat)
    (rel : DBRelationship) (r : ResolvedRel)
    (hres : resolveRelEndpoints importedTables updatedTables rel = some r)
    (hdup : ∃ e ∈ currentRels,
      (e.sourceTableId = r.currentSourceTableId ∧
       e.targetTableId = r.currentTargetTableId ∧
       e.sourceFieldId = r.currentSourceField.id ∧
       e.targetFieldId = r.currentTargetField.id) ∨
      (e.sourceTableId = r.currentTargetTableId ∧
       e.targetTableId = r.currentSourceTableId ∧
       e.sourceFieldId = r.currentTargetField.id ∧
       e.targetFieldId = r.currentSourceField.id)) :
    mapImportedRelationship importedTables updatedTables currentRels freshId
      now rel = none := by
  obtain ⟨e, he, hcond⟩ := hdup
  have hsome : (findExistingDuplicate currentRels r).isSome = true := by
    rw [findExistingDuplicate, List.find?_isSome]
    refine ⟨e, he, ?_⟩
    rcases hcond with ⟨a, b, c, d⟩ | ⟨a, b, c, d⟩ <;> simp [a, b, c, d]
  unfold mapImportedRelationship
  rw [hres]
  cases hfd : findExistingDuplicate currentRels r with
  | none => rw [hfd] at hsome; simp at hsome
  | some d => simp [hfd]

/-- Current tables for the relationship-pass witnesses. -/
def wUsers : DBTable := ⟨"ta", "", "users", [⟨"fa", "id", "int"⟩], 0, 0, "c"⟩

/-- Current tables for the relationship-pass witnesses. -/
def wOrders : DBTable :=
  ⟨"tb", "", "orders", [⟨"fb", "user_id", "int"⟩], 0, 0, "c"⟩

/-- Imported twin of `wUsers` (fresh ids). -/
def wUsersImp : DBTable := ⟨"ia", "", "users", [⟨"ga", "id", "int"⟩], 0, 0, "c"⟩

/-- Imported twin of `wOrders` (fresh ids). -/
def wOrdersImp : DBTable :=
  ⟨"ib", "", "orders", [⟨"gb", "user_id", "int"⟩], 0, 0, "c"⟩

/-- An existing current relationship users.id — orders.user_id. -/
def wExistingRel : DBRelationship :=
  ⟨"r1", "ta", "tb", "fa", "fb", "one", "many", "", "",
   "users_id_orders_user_id", 5⟩

/-- The same relationship as re-imported (fresh ids). -/
def wImportedRel : DBRelationship :=
  ⟨"r9", "ia", "ib", "ga", "gb", "one", "many", "", "", "n", 7⟩

/-- The resolution of `wImportedRel` against the witness tables. -/
def wResolved : ResolvedRel :=
  ⟨wUsersImp, wOrdersImp, ⟨"ga", "id", "int"⟩, ⟨"gb", "user_id", "int"⟩,
   "ta", "tb", wUsers, wOrders, ⟨"fa", "id", "int"⟩, ⟨"fb", "user_id", "int"⟩⟩

theorem dbml_relationship_dedup_witness :
    mapImportedRelationship [wUsersImp, wOrdersImp] [wUsers, wOrders]
      [wExistingRel] "fresh" 7 wImportedRel = none :=
  dbml_relationship_dedup [wUsersImp, wOrdersImp] [wUsers, wOrders]
    [wExistingRel] "fresh" 7 wImportedRel wResolved (by decide)
    ⟨wExistingRel, by decide, Or.inl (by decide)⟩

/-- C7: an imported relationship on which any endpoint resolution step fails
contributes nothing to the addition pass — whatever fresh id would have been
drawn for it — and the apply operation itself still completes without a
failure outcome. -/
theorem dbml_unresolvable_relationship_skipped
    (importedTables updatedTables : List DBTable)
    (currentRels : List DBRelationship) (now : Nat) (rel : DBRelationship)
    (hres : resolveRelEndpoints importedTables updatedTables rel = none) :
    (∀ freshId : String,
      mapImportedRelationship importedTables updatedTables currentRels freshId
        now rel = none) ∧
    (∀ (s : SessionState) (current imported : DBDiagram) (genId : Nat → String),
      applyDBMLChanges s current imported genId now ≠ ApplyResult.failed) := by
  constructor
  · intro freshId
    unfold mapImportedRelationship
    rw [hres]
  · intro s current imported genId
    unfold applyDBMLChanges
    split_ifs <;> simp

/-- An imported relationship whose source table id resolves to no imported
table. -/
def wDanglingRel : DBRelationship :=
  ⟨"r8", "zz", "ib", "ga", "gb", "one", "many", "", "", "n", 7⟩

theorem dbml_unresolvable_relationship_skipped_witness :
    mapImportedRelationship [wUsersImp, wOrdersImp] [wUsers, wOrders]
      [wExistingRel] "fresh" 7 wDanglingRel = none :=
  (dbml_unresolvable_relationship_skipped [wUsersImp, wOrdersImp]
    [wUsers, wOrders] [wExistingRel] 7 wDanglingRel (by decide)).1 "fresh"

/-! ### Name-only table resolution (C10) -/

theorem jsMapGet_mapSet_of_any {α : Type} (k : String) (v : α) :
    ∀ m : List (String × α), m.any (fun p => decide (p.1 = k)) = true →
      jsMapGet (m.map (fun p => if p.1 = k then (k, v) else p)) k = some v := by
  intro m
  induction m with
  | nil => intro h; simp at h
  | cons p rest ih =>
    intro h
    by_cases hp : p.1 = k
    · simp only [List.map_cons, if_pos hp]
      rw [jsMapGet, List.find?_cons_of_pos _ (by simp)]
      rfl
    · have h' : rest.any (fun p => decide (p.1 = k)) = true := by
        rcases List.any_eq_true.mp h with ⟨x, hx, hxk⟩
        rcases List.mem_cons.mp hx with rfl | hx'
        · simp [hp] at hxk
        · exact List.any_eq_true.mpr ⟨x, hx', hxk⟩
      simp only [List.map_cons, if_neg hp]
      rw [jsMapGet, List.find?_cons_of_neg _ (by simp [hp])]
      exact ih h'

theorem jsMapGet_append_single_self {α : Type} (k : String) (v : α) :
    ∀ m : List (String × α), m.any (fun p => decide (p.1 = k)) = false →
      jsMapGet (m ++ [(k, v)]) k = some v := by
  intro m
  induction m with
  | nil =>
    intro _
    rw [List.nil_append, jsMapGet, List.find?_cons_of_pos _ (by simp)]
    rfl
  | cons p rest ih =>
    intro h
    have hsplit : decide (p.1 = k) = false ∧
        rest.any (fun p => decide (p.1 = k)) = false := by
      simpa [List.any_cons] using h
    rw [List.cons_append, jsMapGet, List.find?_cons_of_neg _ (by simp_all)]
    exact ih hsplit.2

theorem jsMapGet_set_self {α : Type} (m : List (String × α)) (k : String)
    (v : α) : jsMapGet (jsMapSet m k v) k = some v := by
  rw [jsMapSet]
  cases h : m.any (fun p => decide (p.1 = k)) with
  | true => rw [if_pos rfl]; exact jsMapGet_mapSet_of_any k v m h
  | false => rw [if_neg (by simp)]; exact jsMapGet_append_single_self k v m h

theorem jsMapGet_mapSet_ne {α : Type} (k k' : String) (v : α) (hne : k' ≠ k) :
    ∀ m : List (String × α),
      jsMapGet (m.map (fun p => if p.1 = k then (k, v) else p)) k' =
        jsMapGet m k' := by
  intro m
  induction m with
  | nil => rfl
  | cons p rest ih =>
    by_cases hp : p.1 = k
    · have h1 : ¬ ((k : String) = k') := fun hh => hne hh.symm
      have h2 : ¬ (p.1 = k') := fun hh => hne (hh.symm.trans hp)
      simp only [List.map_cons, if_pos hp]
      rw [jsMapGet, List.find?_cons_of_neg _ (by simp [h1]), jsMapGet,
        List.find?_cons_of_neg _ (by simp [h2])]
      exact ih
    · simp only [List.map_cons, if_neg hp]
      by_cases hq : p.1 = k'
      · rw [jsMapGet, List.find?_cons_of_pos _ (by simp [hq]), jsMapGet,
          List.find?_cons_of_pos _ (by simp [hq])]
      · rw [jsMapGet, List.find?_cons_of_neg _ (by simp [hq]), jsMapGet,
          List.find?_cons_of_neg _ (by simp [hq])]
        exact ih

theorem jsMapGet_append_single_ne {α : Type} (m : List (String × α))
    (k k' : String) (v : α) (hne : k' ≠ k) :
    jsMapGet (m ++ [(k, v)]) k' = jsMapGet m k' := by
  induction m with
  | nil =>
    rw [List.nil_append, jsMapGet,
      List.find?_cons_of_neg _ (by simp [hne.symm])]
    rfl
  | cons p rest ih =>
    by_cases hq : p.1 = k'
    · rw [List.cons_append, jsMapGet, List.find?_cons_of_pos _ (by simp [hq]),
        jsMapGet, List.find?_cons_of_pos _ (by simp [hq])]
    · rw [List.cons_append, jsMapGet, List.find?_cons_of_neg _ (by simp [hq]),
        jsMapGet, List.find?_cons_of_neg _ (by simp [hq])]
      exact ih

theorem jsMapGet_set_ne {α : Type} (m : List (String × α)) (k k' : String)
    (v : α) (hne : k' ≠ k) : jsMapGet (jsMapSet m k v) k' = jsMapGet m k' := by
  rw [jsMapSet]
  cases h : m.any (fun p => decide (p.1 = k)) with
  | true => rw [if_pos rfl]; exact jsMapGet_mapSet_ne k k' v hne m
  | false => rw [if_neg (by simp)]; exact jsMapGet_append_single_ne m k k' v hne

theorem buildNameMap_skip (l : List DBTable) :
    ∀ (m : List (String × String)) (n : String), (∀ u ∈ l, u.name ≠ n) →
      jsMapGet (l.foldl (fun m table => jsMapSet m table.name table.id) m) n =
        jsMapGet m n := by
  induction l with
  | nil => intro m n _; rfl
  | cons t rest ih =>
    intro m n h
    rw [List.foldl_cons, ih _ n (fun u hu => h u (by simp [hu]))]
    exact jsMapGet_set_ne m t.name n t.id (fun hh => h t (by simp) hh.symm)

theorem resolveRelEndpoints_nameMap (importedTables updatedTables : List DBTable)
    (rel : DBRelationship) (r : ResolvedRel)
    (h : resolveRelEndpoints importedTables updatedTables rel = some r) :
    jsMapGet (buildTableNameToCurrentId updatedTables)
        r.importedSourceTable.name = some r.currentSourceTableId ∧
    jsMapGet (buildTableNameToCurrentId updatedTables)
        r.importedTargetTable.name = some r.currentTargetTableId := by
  unfold resolveRelEndpoints at h
  simp only [Option.bind_eq_bind', Option.bind_eq_some', Option.some.injEq] at h
  obtain ⟨ist, h1, itt, h2, isf, h3, itf, h4, cstid, h5, cttid, h6,
    cst, h7, ctt, h8, csf, h9, ctf, h10, hr⟩ := h
  subst hr
  exact ⟨h5, h6⟩

/-- C10: in the addition pass, endpoint tables are resolved through a map
keyed by table name alone.  When the post-reconciliation table set holds an
earlier table `t1` and a later table `t2` with the same name in different
schemas (and no later table reuses the name), `t2` overwrites `t1` in the
name-to-id map, so a lookup of the shared name yields `t2.id`, and every
successfully resolved relationship endpoint bearing that name receives
`t2.id`, regardless of the schema the imported relationship referred to. -/
theorem dbml_name_only_resolution (pre mid post : List DBTable)
    (t1 t2 : DBTable) (hname : t1.name = t2.name)
    (_hschema : t1.schema ≠ t2.schema)
    (hpost : ∀ u ∈ post, u.name ≠ t2.name) :
    jsMapGet (buildTableNameToCurrentId (pre ++ t1 :: (mid ++ t2 :: post)))
        t1.name = some t2.id ∧
    (∀ (importedTables : List DBTable) (rel : DBRelationship) (r : ResolvedRel),
      resolveRelEndpoints importedTables (pre ++ t1 :: (mid ++ t2 :: post))
          rel = some r →
      (r.importedSourceTable.name = t1.name →
        r.currentSourceTableId = t2.id) ∧
      (r.importedTargetTable.name = t1.name →
        r.currentTargetTableId = t2.id)) := by
  have hmain : jsMapGet
      (buildTableNameToCurrentId (pre ++ t1 :: (mid ++ t2 :: post)))
      t1.name = some t2.id := by
    rw [hname, buildTableNameToCurrentId]
    have hsplit : pre ++ t1 :: (mid ++ t2 :: post) =
        (pre ++ t1 :: mid) ++ t2 :: post := by simp
    rw [hsplit, List.foldl_append, List.foldl_cons,
      buildNameMap_skip post _ t2.name hpost]
    exact jsMapGet_set_self _ t2.name t2.id
  refine ⟨hmain, ?_⟩
  intro importedTables rel r hres
  have hinv := resolveRelEndpoints_nameMap importedTables _ rel r hres
  constructor
  · intro hn
    have h1 := hinv.1
    rw [hn, hmain] at h1
    exact (Option.some_inj.mp h1).symm
  · intro hn
    have h1 := hinv.2
    rw [hn, hmain] at h1
    exact (Option.some_inj.mp h1).symm

/-- An earlier table named `users` in schema `alpha`. -/
def c10T1 : DBTable := ⟨"s1", "alpha", "users", [], 0, 0, "c"⟩

/-- A later table also named `users`, in schema `beta`. -/
def c10T2 : DBTable := ⟨"s2", "beta", "users", [], 0, 0, "c"⟩

theorem dbml_name_only_resolution_witness :
    jsMapGet (buildTableNameToCurrentId ([] ++ c10T1 :: ([] ++ c10T2 :: [])))
      c10T1.name = some c10T2.id :=
  (dbml_name_only_resolution [] [] [] c10T1 c10T2 rfl (by decide)
    (by simp)).1

/-! ### Relationship removal by structural absence (C3) -/

/-- The resolved name quadruple of an imported relationship matches
`(sT, sF, tT, tF)` in either direction (the structural matching the spec
describes). -/
def structurallyMatchesB (importedTables : List DBTable)
    (irel : DBRelationship) (sT sF tT tF : String) : Bool :=
  match importedTables.find? (fun t => decide (t.id = irel.sourceTableId)),
      importedTables.find? (fun t => decide (t.id = irel.targetTableId)) with
  | some ist, some itt =>
    match ist.fields.find? (fun f => decide (f.id = irel.sourceFieldId)),
        itt.fields.find? (fun f => decide (f.id = irel.targetFieldId)) with
    | some isf, some itf =>
      (decide (ist.name = sT) && decide (isf.name = sF) &&
       decide (itt.name = tT) && decide (itf.name = tF)) ||
      (decide (ist.name = tT) && decide (isf.name = tF) &&
       decide (itt.name = sT) && decide (itf.name = sF))
    | _, _ => false
  | _, _ => false

/-- C3 (amended): a current relationship whose endpoint tables are not
removed and whose endpoints resolve in the current diagram is placed in the
removal set whenever neither its key string
`sourceTable.sourceField:targetTable.targetField` nor the reversed key
string occurs among the keys recorded for the imported relationships —
which coincides with structural quadruple matching whenever names contain no
separator characters. -/
theorem dbml_relationship_structural_removal
    (currentTables tablesToRemove tablesToUpdate : List DBTable)
    (keys : List String) (currentRels : List DBRelationship)
    (rel : DBRelationship) (hrel : rel ∈ currentRels)
    (cst ctt : DBTable) (csf ctf : DBField)
    (hnotRemoved : tablesToRemove.any (fun table =>
      decide (table.id = rel.sourceTableId) ||
      decide (table.id = rel.targetTableId)) = false)
    (hcst : currentTables.find? (fun t => decide (t.id = rel.sourceTableId)) =
      some cst)
    (hctt : currentTables.find? (fun t => decide (t.id = rel.targetTableId)) =
      some ctt)
    (hcsf : cst.fields.find? (fun f => decide (f.id = rel.sourceFieldId)) =
      some csf)
    (hctf : ctt.fields.find? (fun f => decide (f.id = rel.targetFieldId)) =
      some ctf)
    (hkey : relKey cst.name csf.name ctt.name ctf.name ∉ keys)
    (hkeyRev : relKey ctt.name ctf.name cst.name csf.name ∉ keys) :
    rel ∈ relationshipsToRemoveOf currentTables currentRels tablesToRemove
      tablesToUpdate keys := by
  rw [relationshipsToRemoveOf]
  refine List.mem_filter.mpr ⟨hrel, ?_⟩
  unfold shouldRemoveRel
  rw [hnotRemoved]
  simp only [Bool.false_eq_true, if_false, hcst, hctt, hcsf, hctf]
  have h1 : keys.contains (relKey cst.name csf.name ctt.name ctf.name) = false := by
    simpa using hkey
  have h2 : keys.contains (relKey ctt.name ctf.name cst.name csf.name) = false := by
    simpa using hkeyRev
  simp [h1, h2]
  exact Or.inl ⟨hkey, hkeyRev⟩

/-- Current table `x` with a field `y`. -/
def c3X : DBTable := ⟨"cx", "", "x", [⟨"fy", "y", "int"⟩], 0, 0, "c"⟩

/-- Current table `z` with a field named `w.v` (a dot inside the name). -/
def c3Z : DBTable := ⟨"cz", "", "z", [⟨"fw", "w.v", "int"⟩], 0, 0, "c"⟩

/-- The current relationship x.y — z.(w.v). -/
def c3R : DBRelationship :=
  ⟨"cr", "cx", "cz", "fy", "fw", "one", "many", "", "", "nm", 1⟩

/-- Imported twin of `c3X`. -/
def c3IX : DBTable := ⟨"ix", "", "x", [⟨"gy", "y", "int"⟩], 0, 0, "c"⟩

/-- Imported twin of `c3Z`. -/
def c3IZ : DBTable := ⟨"iz", "", "z", [⟨"gw", "w.v", "int"⟩], 0, 0, "c"⟩

/-- An imported table named `z.w` with a field `v`: its relationship key
collides with the key of x.y — z.(w.v). -/
def c3IZW : DBTable := ⟨"izw", "", "z.w", [⟨"gv", "v", "int"⟩], 0, 0, "c"⟩

/-- The only imported relationship: x.y — (z.w).v, structurally different
from the current one. -/
def c3IR : DBRelationship :=
  ⟨"ir", "ix", "izw", "gy", "gv", "one", "many", "", "", "nm", 1⟩

/-- C3 (counterexample to the claim as stated): the current relationship
x.y — z.(w.v) resolves to the quadruple ("x", "y", "z", "w.v"); its endpoint
tables are not removed; no imported relationship matches that quadruple
structurally in either direction (the only one resolves to
("x", "y", "z.w", "v")); yet the relationship is NOT placed in the removal
set, because its key string "x.y:z.w.v" collides with the key of the
imported relationship. -/
theorem dbml_structural_removal_counterexample :
    ([c3X, c3Z].find? (fun t => decide (t.id = c3R.sourceTableId)) = some c3X) ∧
    ([c3X, c3Z].find? (fun t => decide (t.id = c3R.targetTableId)) = some c3Z) ∧
    (c3X.fields.find? (fun f => decide (f.id = c3R.sourceFieldId)) =
      some ⟨"fy", "y", "int"⟩) ∧
    (c3Z.fields.find? (fun f => decide (f.id = c3R.targetFieldId)) =
      some ⟨"fw", "w.v", "int"⟩) ∧
    (reconcileTables [c3X, c3Z] [c3IX, c3IZ, c3IZW]).tablesToRemove = [] ∧
    ([c3IR].all (fun irel =>
      !(structurallyMatchesB [c3IX, c3IZ, c3IZW] irel "x" "y" "z" "w.v"))) = true ∧
    c3R ∉ relationshipsToRemoveOf [c3X, c3Z] [c3R]
      (reconcileTables [c3X, c3Z] [c3IX, c3IZ, c3IZW]).tablesToRemove
      (reconcileTables [c3X, c3Z] [c3IX, c3IZ, c3IZW]).tablesToUpdate
      (importedRelKeys [c3IX, c3IZ, c3IZW] [c3IR]) := by
  decide

theorem dbml_relationship_structural_removal_witness :
    c3R ∈ relationshipsToRemoveOf [c3X, c3Z] [c3R] [] []
      (importedRelKeys [c3IX, c3IZ, c3IZW] []) :=
  dbml_relationship_structural_removal [c3X, c3Z] [] [] _ [c3R] c3R
    (by decide) c3X c3Z ⟨"fy", "y", "int"⟩ ⟨"fw", "w.v", "int"⟩
    (by decide) (by decide) (by decide) (by decide) (by decide)
    (by decide) (by decide)
